import Mathlib

/-!
Verification of the result-consolidation engine
(`src/workflows/enhanced_consolidation.py`).

The Python code is shallowly embedded: dictionaries become structures
(absent keys are the `.get` defaults), floats become rationals, the regex
substitutions of `_clean_text` / `_normalize_text` become explicit
left-to-right scanners, Python sets become deduplicated lists, and the
wall-clock read `datetime.now().isoformat()` becomes an explicit `now`
parameter of the entry point.  Character classes are modelled over ASCII.
-/

namespace Lumina

/-- Python `\s` (ASCII): space, tab, newline, carriage return, vertical tab, form feed. -/
def isPySpace (c : Char) : Bool :=
  c = ' ' || c = '\t' || c = '\n' || c = '\r' || c = Char.ofNat 11 || c = Char.ofNat 12

/-- Python `\w` (ASCII): letters, digits, underscore. -/
def isWordChar (c : Char) : Bool :=
  c.isAlphanum || c = '_'

/-- Python `str.strip()`: drop leading and trailing whitespace. -/
def pyStrip (l : List Char) : List Char :=
  (((l.dropWhile isPySpace).reverse.dropWhile isPySpace)).reverse

/-- Scanner for `re.sub(r'\s+', ' ', text)`: the flag records whether the
previous character belonged to a whitespace run already replaced by `' '`. -/
def collapseGo : Bool → List Char → List Char
  | _, [] => []
  | prevWs, c :: rest =>
      if isPySpace c then
        if prevWs then collapseGo true rest
        else ' ' :: collapseGo true rest
      else c :: collapseGo false rest

/-- `re.sub(r'\s+', ' ', text)`: each maximal whitespace run becomes one space. -/
def collapseWs (l : List Char) : List Char := collapseGo false l

/-- One pass of `re.sub(r'<[^>]+>', '', text)`: at each `<`, a match needs at
least one following non-`>` character and then a `>`; on a match the scan
resumes after the `>`, otherwise it advances one character. -/
def stripTagsGo : Nat → List Char → List Char
  | 0, l => l
  | _ + 1, [] => []
  | fuel + 1, c :: rest =>
      if c = '<' then
        match rest.takeWhile (fun d => d ≠ '>'), rest.dropWhile (fun d => d ≠ '>') with
        | _ :: _, _ :: tail => stripTagsGo fuel tail
        | _, _ => c :: stripTagsGo fuel rest
      else c :: stripTagsGo fuel rest

/-- One pass of `re.sub(r'\*\*([^*]+)\*\*', r'\1', text)`. -/
def stripBoldGo : Nat → List Char → List Char
  | 0, l => l
  | _ + 1, [] => []
  | fuel + 1, c :: rest =>
      match rest with
      | c2 :: rest2 =>
          if c = '*' then
            if c2 = '*' then
              match rest2.takeWhile (fun d => d ≠ '*'), rest2.dropWhile (fun d => d ≠ '*') with
              | run :: runs, _ :: d2 :: tail =>
                  if d2 = '*' then (run :: runs) ++ stripBoldGo fuel tail
                  else c :: stripBoldGo fuel rest
              | _, _ => c :: stripBoldGo fuel rest
            else c :: stripBoldGo fuel rest
          else c :: stripBoldGo fuel rest
      | [] => [c]

/-- One pass of `re.sub(r'\*([^*]+)\*', r'\1', text)`. -/
def stripItalicGo : Nat → List Char → List Char
  | 0, l => l
  | _ + 1, [] => []
  | fuel + 1, c :: rest =>
      if c = '*' then
        match rest.takeWhile (fun d => d ≠ '*'), rest.dropWhile (fun d => d ≠ '*') with
        | run :: runs, _ :: tail => (run :: runs) ++ stripItalicGo fuel tail
        | _, _ => c :: stripItalicGo fuel rest
      else c :: stripItalicGo fuel rest

/-- One pass of `re.sub(r'#{1,6}\s+', '', text)`: a match needs a run of at
most six `#` (counted from the current position) followed by whitespace; the
hashes and the whole whitespace run are removed. -/
def stripHeadingGo : Nat → List Char → List Char
  | 0, l => l
  | _ + 1, [] => []
  | fuel + 1, c :: rest =>
      if c = '#' then
        let hashes := rest.takeWhile (fun d => d = '#')
        let after := rest.dropWhile (fun d => d = '#')
        if hashes.length + 1 ≤ 6 ∧ (after.headD ' ' |> isPySpace) ∧ after ≠ [] then
          stripHeadingGo fuel (after.dropWhile isPySpace)
        else c :: stripHeadingGo fuel rest
      else c :: stripHeadingGo fuel rest

/-- One pass of the backtick rule `` re.sub(r'`([^`]+)`', r'\1', text) ``. -/
def stripCodeGo : Nat → List Char → List Char
  | 0, l => l
  | _ + 1, [] => []
  | fuel + 1, c :: rest =>
      if c = Char.ofNat 96 then
        match rest.takeWhile (fun d => d ≠ Char.ofNat 96),
              rest.dropWhile (fun d => d ≠ Char.ofNat 96) with
        | run :: runs, _ :: tail => (run :: runs) ++ stripCodeGo fuel tail
        | _, _ => c :: stripCodeGo fuel rest
      else c :: stripCodeGo fuel rest

/-- One pass of `re.sub(r'\[\d+\]', '', text)`. -/
def stripCiteGo : Nat → List Char → List Char
  | 0, l => l
  | _ + 1, [] => []
  | fuel + 1, c :: rest =>
      if c = '[' then
        match rest.takeWhile Char.isDigit, rest.dropWhile Char.isDigit with
        | _ :: _, d :: tail =>
            if d = ']' then stripCiteGo fuel tail
            else c :: stripCiteGo fuel rest
        | _, _ => c :: stripCiteGo fuel rest
      else c :: stripCiteGo fuel rest

/-- `_clean_text` on character lists: the six substitutions in source order,
then whitespace collapsing and `strip`. -/
def cleanTextL (l : List Char) : List Char :=
  let s1 := stripTagsGo l.length l
  let s2 := stripBoldGo s1.length s1
  let s3 := stripItalicGo s2.length s2
  let s4 := stripHeadingGo s3.length s3
  let s5 := stripCodeGo s4.length s4
  let s6 := stripCiteGo s5.length s5
  pyStrip (collapseWs s6)

/-- `EnhancedResultConsolidator._clean_text`. -/
def cleanText (s : String) : String := String.mk (cleanTextL s.toList)

/-- `_normalize_text`: lowercase, strip, delete non-word non-space characters,
collapse whitespace. -/
def normalizeTextL (l : List Char) : List Char :=
  let low := pyStrip (l.map Char.toLower)
  let kept := low.filter (fun c => isWordChar c || isPySpace c)
  collapseWs kept

/-- `EnhancedResultConsolidator._normalize_text`. -/
def normalizeText (s : String) : String := String.mk (normalizeTextL s.toList)

/-- Python `str.lower()` (ASCII). -/
def lowerString (s : String) : String := String.mk (s.toList.map Char.toLower)

/-- Python `str.split()` with no arguments: split on whitespace runs,
discarding empty pieces; the accumulator holds the current word reversed. -/
def splitAux : List Char → List Char → List String
  | [], acc => if acc.isEmpty then [] else [String.mk acc.reverse]
  | c :: rest, acc =>
      if isPySpace c then
        if acc.isEmpty then splitAux rest []
        else String.mk acc.reverse :: splitAux rest []
      else splitAux rest (c :: acc)

/-- Python `text.split()`. -/
def pySplit (s : String) : List String := splitAux s.toList []

/-- `set(text.split())`. -/
def wordSet (s : String) : Finset String := (pySplit s).toFinset

/-- Jaccard index of two word sets (`len(intersection) / len(union)`);
division by zero yields 0 in `ℚ`. -/
def jaccardQ (w1 w2 : Finset String) : ℚ :=
  ((w1 ∩ w2).card : ℚ) / ((w1 ∪ w2).card : ℚ)

/-- Jaccard index of the word sets of two texts. -/
def jaccardTexts (t1 t2 : String) : ℚ := jaccardQ (wordSet t1) (wordSet t2)

/-- `_texts_are_similar` with the default threshold 0.6: false when either
word set is empty, else whether the Jaccard index reaches the threshold. -/
def textsAreSimilar (t1 t2 : String) : Bool :=
  if wordSet t1 = ∅ ∨ wordSet t2 = ∅ then false
  else decide ((3 : ℚ) / 5 ≤ jaccardQ (wordSet t1) (wordSet t2))

/-- One agent's result record.  Each field models the corresponding
dictionary key, with the default used by the code's `.get` call standing in
for an absent key.  `findings` is the alternative field name some agents use
for their findings list; the record carries it so that theorems can speak
about whether the core ever reads it. -/
structure AgentResult where
  agent_name : String
  status : String
  summary : String
  key_findings : List String
  findings : List String
  insights : List String
  sources : List String
  source_count : Nat
  tokens : Nat
  cost : ℚ
deriving DecidableEq

/-- A collected finding together with its metadata (`findings_data` entries). -/
structure FindingItem where
  text : String
  agent : String
  normalized : String
deriving DecidableEq

/-- The finding items one successful agent result contributes: each raw
finding is cleaned and kept when nonempty and longer than 20 characters. -/
def resultFindingItems (r : AgentResult) : List FindingItem :=
  if r.status = "success" then
    r.key_findings.filterMap (fun f =>
      if cleanText f ≠ "" ∧ 20 < (cleanText f).length then
        some ⟨cleanText f, r.agent_name, normalizeText (cleanText f)⟩
      else none)
  else []

/-- The collection loop of `_synthesize_findings`. -/
def collectFindings : List AgentResult → List FindingItem
  | [] => []
  | r :: rest => resultFindingItems r ++ collectFindings rest

/-- The deduplication loop of `_synthesize_findings`: `seen` holds the
normalized forms of the findings accepted so far; a candidate similar to any
of them is dropped. -/
def dedupFindings : List FindingItem → List String → List String
  | [], _ => []
  | it :: rest, seen =>
      if seen.any (fun s => textsAreSimilar it.normalized s) then dedupFindings rest seen
      else it.text :: dedupFindings rest (it.normalized :: seen)

/-- The fallback message returned when no finding survives collection. -/
def fallbackFindingMsg : String :=
  "No structured findings were extracted from the research. Review individual agent results for detailed information."

/-- `EnhancedResultConsolidator._synthesize_findings`. -/
def synthesizeFindings (rs : List AgentResult) : List String :=
  if (collectFindings rs).isEmpty then [fallbackFindingMsg]
  else (dedupFindings (collectFindings rs) []).take 10

/-- The insight texts one successful agent result contributes. -/
def resultInsightTexts (r : AgentResult) : List String :=
  if r.status = "success" then
    r.insights.filterMap (fun i =>
      if cleanText i ≠ "" ∧ 20 < (cleanText i).length then some (cleanText i) else none)
  else []

/-- The collection loop of `_synthesize_insights`. -/
def collectInsights : List AgentResult → List String
  | [] => []
  | r :: rest => resultInsightTexts r ++ collectInsights rest

/-- The deduplication loop of `_synthesize_insights`: a candidate is dropped
when it is similar to some already-accepted insight. -/
def dedupInsightsGo (acc : List String) : List String → List String
  | [] => acc
  | i :: rest =>
      if acc.any (fun e => textsAreSimilar (normalizeText i) (normalizeText e)) then
        dedupInsightsGo acc rest
      else dedupInsightsGo (acc ++ [i]) rest

/-- `sum(r.get('source_count', 0) for r in agent_results)`. -/
def sumSourceCount (rs : List AgentResult) : Nat :=
  (rs.map (fun r => r.source_count)).sum

/-- The agents counted as successful. -/
def successfulResults (rs : List AgentResult) : List AgentResult :=
  rs.filter (fun r => r.status = "success")

/-- `EnhancedResultConsolidator._generate_domain_insights`. -/
def generateDomainInsights (rs : List AgentResult) (domain : String) : List String :=
  let total_sources := sumSourceCount rs
  let agent_names := (successfulResults rs).map (fun r => r.agent_name)
  let base := "Research incorporates " ++ toString total_sources ++ " sources from "
      ++ toString agent_names.length
      ++ " specialized agents, providing comprehensive multi-perspective analysis"
  let tail :=
    if domain = "technology" then
      ["Technology landscape analysis reveals emerging trends and innovation patterns",
       "Cross-referencing technical sources provides validation of technological claims"]
    else if domain = "medical" then
      ["Clinical evidence synthesis requires careful evaluation of source quality and methodology",
       "Multiple data sources help identify consensus and areas of ongoing research"]
    else if domain = "academic" then
      ["Scholarly research benefits from diverse source types including peer-reviewed papers and expert analysis",
       "Academic consensus emerges from systematic evaluation of multiple authoritative sources"]
    else if domain = "stocks" then
      ["Market analysis requires integration of quantitative data, analyst opinions, and news sentiment",
       "Multiple information sources help identify investment opportunities while managing risk"]
    else
      ["Multi-source analysis provides robust foundation for informed decision-making"]
  (base :: tail).take 5

/-- `EnhancedResultConsolidator._synthesize_insights`. -/
def synthesizeInsights (rs : List AgentResult) (domain : String) : List String :=
  (if (dedupInsightsGo [] (collectInsights rs)).isEmpty then generateDomainInsights rs domain
   else dedupInsightsGo [] (collectInsights rs)).take 8

/-- One statement gathered for contradiction detection. -/
structure Statement where
  text : String
  agent : String
deriving DecidableEq

/-- The statements (cleaned findings then cleaned insights, empties dropped)
one successful agent result contributes. -/
def resultStatements (r : AgentResult) : List Statement :=
  if r.status = "success" then
    r.key_findings.filterMap (fun f =>
      if cleanText f ≠ "" then some ⟨cleanText f, r.agent_name⟩ else none)
    ++ r.insights.filterMap (fun i =>
      if cleanText i ≠ "" then some ⟨cleanText i, r.agent_name⟩ else none)
  else []

/-- The statement collection loop of `_detect_contradictions`. -/
def collectStatements : List AgentResult → List Statement
  | [] => []
  | r :: rest => resultStatements r ++ collectStatements rest

/-- The fixed antonym keyword table of `_detect_contradictions`. -/
def contradictionKeywords : List (String × String) :=
  [("increases", "decreases"),
   ("positive", "negative"),
   ("bullish", "bearish"),
   ("effective", "ineffective"),
   ("safe", "unsafe"),
   ("recommended", "not recommended")]

/-- Whether `sub` occurs as a contiguous run in `l`. -/
def infixOfGo (sub : List Char) : List Char → Bool
  | [] => sub.isEmpty
  | c :: rest => sub.isPrefixOf (c :: rest) || infixOfGo sub rest

/-- Python substring membership `sub in text`. -/
def containsSub (text sub : String) : Bool :=
  infixOfGo sub.toList text.toList

/-- Whether some keyword pair occurs across the two lowercased texts, in
either direction. -/
def keywordClash (t1 t2 : String) : Bool :=
  contradictionKeywords.any (fun p =>
    (containsSub t1 p.1 && containsSub t2 p.2) || (containsSub t1 p.2 && containsSub t2 p.1))

/-- `stmt['text'][:100] + "..."`. -/
def truncate100 (s : String) : String :=
  String.mk (s.toList.take 100) ++ "..."

/-- One detected contradiction record. -/
structure Contradiction where
  agent1 : String
  statement1 : String
  agent2 : String
  statement2 : String
  ctype : String
deriving DecidableEq

/-- The record appended for a clashing statement pair. -/
def mkContradiction (s1 s2 : Statement) : Contradiction :=
  ⟨s1.agent, truncate100 s1.text, s2.agent, truncate100 s2.text, "potential_contradiction"⟩

/-- The pair scan of `_detect_contradictions`: every later statement is
tested against every earlier one, in source order; a pair from two different
agents whose lowercased texts exhibit a keyword clash yields one record. -/
def pairContras : List Statement → List Contradiction
  | [] => []
  | s1 :: rest =>
      rest.filterMap (fun s2 =>
        if s1.agent ≠ s2.agent ∧ keywordClash (lowerString s1.text) (lowerString s2.text) then
          some (mkContradiction s1 s2)
        else none)
      ++ pairContras rest

/-- `EnhancedResultConsolidator._detect_contradictions`. -/
def detectContradictions (rs : List AgentResult) : List Contradiction :=
  (pairContras (collectStatements rs)).take 5

/-- `len([r for r in agent_results if r.get('status') == 'success'])`. -/
def successCount (rs : List AgentResult) : Nat := (successfulResults rs).length

/-- `sum(len(r.get('key_findings', [])) for r in agent_results)`. -/
def totalFindingsCount (rs : List AgentResult) : Nat :=
  (rs.map (fun r => r.key_findings.length)).sum

/-- `sum(len(r.get('insights', [])) for r in agent_results)`. -/
def totalInsightsCount (rs : List AgentResult) : Nat :=
  (rs.map (fun r => r.insights.length)).sum

/-- Round to the nearest integer, ties to even (Python `round` on exact
values). -/
def roundHalfEven (q : ℚ) : ℤ :=
  if q - (⌊q⌋ : ℚ) < 1 / 2 then ⌊q⌋
  else if 1 / 2 < q - (⌊q⌋ : ℚ) then ⌊q⌋ + 1
  else if ⌊q⌋ % 2 = 0 then ⌊q⌋ else ⌊q⌋ + 1

/-- Python `round(x, 1)` modelled over `ℚ`. -/
def pyRound1 (q : ℚ) : ℚ := (roundHalfEven (10 * q) : ℚ) / 10

/-- `EnhancedResultConsolidator._calculate_confidence_score`: the sum of the
agent-success-rate, source-diversity, finding-consistency and insight-depth
factors, rounded to one decimal. -/
def calculateConfidenceScore (rs : List AgentResult) : ℚ :=
  if rs.isEmpty then 0
  else
    pyRound1 ((successCount rs : ℚ) / (rs.length : ℚ) * 30
      + min ((sumSourceCount rs : ℚ) / 10) 1 * 30
      + (if 0 < totalFindingsCount rs then min ((totalFindingsCount rs : ℚ) / 20) 1 * 20 else 0)
      + (if 0 < totalInsightsCount rs then min ((totalInsightsCount rs : ℚ) / 10) 1 * 20 else 0))

/-- The score as the specification's own sentence states it:
`round(S, 1)` where `S` is the sum of the success-rate, source-diversity,
finding-consistency and insight-depth terms (the last two zero when the
corresponding count is zero). -/
def specScore (rs : List AgentResult) : ℚ :=
  pyRound1 ((successCount rs : ℚ) / (rs.length : ℚ) * 30
    + min ((sumSourceCount rs : ℚ) / 10) 1 * 30
    + (if totalFindingsCount rs = 0 then 0 else min ((totalFindingsCount rs : ℚ) / 20) 1 * 20)
    + (if totalInsightsCount rs = 0 then 0 else min ((totalInsightsCount rs : ℚ) / 10) 1 * 20))

/-- The coverage analysis record. -/
structure Coverage where
  breadth : String
  depth : String
  recency : String
  source_types : List String
  recommendations : List String
deriving DecidableEq

/-- Model of inserting into a Python `set`, realized as an order-preserving
deduplicated list. -/
def insertUniq (l : List String) (a : String) : List String :=
  if a ∈ l then l else l ++ [a]

/-- Model of building a Python `set` from a list and listing it. -/
def setList (l : List String) : List String := l.foldl insertUniq []

/-- `EnhancedResultConsolidator._analyze_coverage`.  The `domain` parameter
is accepted and unused, as in the source. -/
def analyzeCoverage (rs : List AgentResult) (_domain : String) : Coverage :=
  let ts := sumSourceCount rs
  let breadth :=
    if 30 ≤ ts then "excellent"
    else if 15 ≤ ts then "good"
    else if ts < 5 then "limited"
    else "medium"
  let tf := totalFindingsCount rs
  let ti := totalInsightsCount rs
  let depth :=
    if 10 ≤ tf ∧ 5 ≤ ti then "excellent"
    else if 5 ≤ tf ∧ 3 ≤ ti then "good"
    else if tf < 3 then "limited"
    else "medium"
  let types := setList ((successfulResults rs).map (fun r => r.agent_name))
  let recs :=
    (if types.length = 1 then ["Consider using multiple agents for broader perspective"] else [])
    ++ (if ts < 10 then ["Increase source count for more comprehensive analysis"] else [])
    ++ (if ti < 3 then ["Refine query to generate more actionable insights"] else [])
  ⟨breadth, depth, "unknown", types, recs⟩

/-- One collected summary candidate. -/
structure SummaryItem where
  text : String
  agent : String
deriving DecidableEq

/-- The summary candidates: successful agents' nonempty summaries whose
cleaned text exceeds 50 characters. -/
def collectSummaries : List AgentResult → List SummaryItem
  | [] => []
  | r :: rest =>
      (if r.status = "success" then
        (if r.summary ≠ "" ∧ 50 < (cleanText r.summary).length then
          [(⟨cleanText r.summary, r.agent_name⟩ : SummaryItem)]
         else [])
       else []) ++ collectSummaries rest

/-- The apostrophe character, used by the fallback-summary template. -/
def apos : String := String.mk [Char.ofNat 39]

/-- `EnhancedResultConsolidator._generate_fallback_summary`. -/
def generateFallbackSummary (query domain : String) (total_sources agent_count : Nat) : String :=
  "Comprehensive research on " ++ apos ++ query ++ apos ++ " in the " ++ domain
  ++ " domain. Analysis utilized " ++ toString agent_count
  ++ " specialized agent(s) to examine " ++ toString total_sources
  ++ " sources, providing multi-dimensional insights across various information channels. "
  ++ "Detailed findings and sources are available in the respective tabs."

/-- Python `max(summaries, key=length)`: the first item of maximal length. -/
def maxByLength (h : SummaryItem) (t : List SummaryItem) : SummaryItem :=
  t.foldl (fun best x => if best.text.length < x.text.length then x else best) h

/-- `EnhancedResultConsolidator._synthesize_summary`. -/
def synthesizeSummary (rs : List AgentResult) (query domain : String) : String :=
  match collectSummaries rs with
  | [] => generateFallbackSummary query domain (sumSourceCount rs) (successCount rs)
  | [s] => s.text
  | s :: ss =>
      let primary := maxByLength s ss
      let agent_names := (s :: ss).map (fun x => x.agent)
      let uniques := setList agent_names
      let intro := "**Multi-Agent Research Analysis** (" ++ toString agent_names.length
        ++ " agents): "
      let intro :=
        if 1 < uniques.length then
          intro ++ "Insights synthesized from " ++ String.intercalate ", " uniques ++ " sources. "
        else intro
      intro ++ primary.text

/-- The consolidated output record. -/
structure Consolidated where
  query : String
  domain : String
  summary : String
  key_findings : List String
  insights : List String
  contradictions : List Contradiction
  confidence_score : ℚ
  coverage_analysis : Coverage
  agent_results : List AgentResult
  successful_agents : List String
  total_sources : Nat
  total_tokens : Nat
  total_cost : ℚ
  execution_time : ℚ
  timestamp : String
  synthesis_quality : String
deriving DecidableEq

/-- `consolidate_results`.  The wall-clock read `datetime.now().isoformat()`
is surfaced as the explicit `now` parameter; every other output is a pure
function of the four inputs. -/
def consolidateResults (query domain : String) (agent_results : List AgentResult)
    (execution_time : ℚ) (now : String) : Consolidated :=
  let succ := successfulResults agent_results
  ⟨query,
   domain,
   synthesizeSummary agent_results query domain,
   synthesizeFindings agent_results,
   synthesizeInsights agent_results domain,
   detectContradictions agent_results,
   calculateConfidenceScore agent_results,
   analyzeCoverage agent_results domain,
   agent_results,
   succ.map (fun r => r.agent_name),
   ((succ.map (fun r => r.sources)).flatten).length,
   (succ.map (fun r => r.tokens)).sum,
   (succ.map (fun r => r.cost)).sum,
   execution_time,
   now,
   if 1 < succ.length then "high" else "medium"⟩

/-- The consolidated record with its timestamp blanked, for stating that the
clock influences nothing else. -/
def eraseTimestamp (c : Consolidated) : Consolidated :=
  ⟨c.query, c.domain, c.summary, c.key_findings, c.insights, c.contradictions,
   c.confidence_score, c.coverage_analysis, c.agent_results, c.successful_agents,
   c.total_sources, c.total_tokens, c.total_cost, c.execution_time, "",
   c.synthesis_quality⟩

/-- The same agent result with the alternative `findings` field emptied. -/
def clearFindingsField (r : AgentResult) : AgentResult :=
  ⟨r.agent_name, r.status, r.summary, r.key_findings, [], r.insights, r.sources,
   r.source_count, r.tokens, r.cost⟩

/-- The single-agent record of the specification's confidence scenario. -/
def singleSuccessRecord : AgentResult :=
  ⟨"perplexity", "success", "",
   ["Finding A long enough to pass the twenty character filter"], [], [], [], 5, 0, 0⟩

/-- A successful record whose findings are supplied only under the
alternative `findings` field name. -/
def findingsOnlyRecord : AgentResult :=
  ⟨"api", "success", "", [], ["Academic research finding long enough to matter"], [], [], 3, 0, 0⟩

/-- A failed agent reporting twenty sources in `source_count`. -/
def failedAgentTwenty : AgentResult := ⟨"api", "failed", "", [], [], [], [], 20, 0, 0⟩

/-- A failed agent reporting zero sources. -/
def failedAgentZero : AgentResult := ⟨"api", "failed", "", [], [], [], [], 0, 0, 0⟩

/-- Agent A stating growth. -/
def growthAgent : AgentResult :=
  ⟨"A", "success", "", ["Company shows strong growth this quarter"], [], [], [], 0, 0, 0⟩

/-- Agent B stating decline. -/
def declineAgent : AgentResult :=
  ⟨"B", "success", "", ["Company shows clear decline this quarter"], [], [], [], 0, 0, 0⟩

/-- Agent A stating an upward move. -/
def upAgent : AgentResult :=
  ⟨"A", "success", "", ["Prices moved up sharply in March"], [], [], [], 0, 0, 0⟩

/-- Agent B stating a downward move. -/
def downAgent : AgentResult :=
  ⟨"B", "success", "", ["Prices moved down sharply in April"], [], [], [], 0, 0, 0⟩

/-- The characters that can start a match of one of the six markup
substitutions of `_clean_text`. -/
def triggerChars : List Char := ['<', '*', '#', Char.ofNat 96, '[']

/-- No two adjacent whitespace characters (the shape of whitespace after
collapsing). -/
def noTwoWs (a b : Char) : Prop := ¬(isPySpace a = true ∧ isPySpace b = true)

/-- Agent A with a short statement containing "safe". -/
def safeAgent : AgentResult :=
  ⟨"A", "success", "", ["The treatment is safe"], [], [], [], 0, 0, 0⟩

/-- Agent B with a short statement containing "unsafe". -/
def unsafeAgent : AgentResult :=
  ⟨"B", "success", "", ["The treatment is unsafe"], [], [], [], 0, 0, 0⟩

/- ===================== theorems ===================== -/

theorem roundHalfEven_nonneg (q : ℚ) (h : 0 ≤ q) : 0 ≤ roundHalfEven q := by
  have h0 : (0 : ℤ) ≤ ⌊q⌋ := Int.floor_nonneg.mpr h
  unfold roundHalfEven
  split_ifs <;> omega

theorem roundHalfEven_le_int (q : ℚ) (n : ℤ) (h : q ≤ (n : ℚ)) : roundHalfEven q ≤ n := by
  have hf : ⌊q⌋ ≤ n := by
    have h1 : ⌊q⌋ ≤ ⌊(n : ℚ)⌋ := Int.floor_le_floor h
    simpa using h1
  unfold roundHalfEven
  split_ifs with h1 h2 h3
  · exact hf
  · have hlt : ((⌊q⌋ : ℚ)) < (n : ℚ) := by linarith
    have : ⌊q⌋ < n := by exact_mod_cast hlt
    omega
  · exact hf
  · have hlt : ((⌊q⌋ : ℚ)) < (n : ℚ) := by linarith
    have : ⌊q⌋ < n := by exact_mod_cast hlt
    omega

theorem pyRound1_nonneg (q : ℚ) (h : 0 ≤ q) : 0 ≤ pyRound1 q := by
  unfold pyRound1
  have := roundHalfEven_nonneg (10 * q) (by linarith)
  have hcast : (0 : ℚ) ≤ (roundHalfEven (10 * q) : ℚ) := by exact_mod_cast this
  positivity

theorem pyRound1_le_100 (q : ℚ) (h : q ≤ 100) : pyRound1 q ≤ 100 := by
  unfold pyRound1
  have h1 : roundHalfEven (10 * q) ≤ (1000 : ℤ) := by
    apply roundHalfEven_le_int
    push_cast
    linarith
  have hcast : (roundHalfEven (10 * q) : ℚ) ≤ 1000 := by exact_mod_cast h1
  linarith

theorem pyRound1_intCast (n : ℤ) : pyRound1 ((n : ℚ)) = (n : ℚ) := by
  unfold pyRound1 roundHalfEven
  have h10 : (10 : ℚ) * (n : ℚ) = ((10 * n : ℤ) : ℚ) := by push_cast; ring
  rw [h10, Int.floor_intCast]
  have hz : ((10 * n : ℤ) : ℚ) - ((10 * n : ℤ) : ℚ) = 0 := sub_self _
  split_ifs with hc hc2 hc3
  · push_cast; ring
  all_goals rw [hz] at hc
  all_goals norm_num at hc

theorem pyRound1_natCast (n : ℕ) : pyRound1 ((n : ℚ)) = (n : ℚ) := by
  have h := pyRound1_intCast (n : ℤ)
  push_cast at h
  exact h

theorem score_sum_nonneg (rs : List AgentResult) :
    0 ≤ (successCount rs : ℚ) / (rs.length : ℚ) * 30
      + min ((sumSourceCount rs : ℚ) / 10) 1 * 30
      + (if 0 < totalFindingsCount rs then min ((totalFindingsCount rs : ℚ) / 20) 1 * 20 else 0)
      + (if 0 < totalInsightsCount rs then min ((totalInsightsCount rs : ℚ) / 10) 1 * 20 else 0) := by
  have hf1a : (0 : ℚ) ≤ (successCount rs : ℚ) / (rs.length : ℚ) * 30 := by positivity
  have hf2a : (0 : ℚ) ≤ min ((sumSourceCount rs : ℚ) / 10) 1 * 30 := by
    have : (0 : ℚ) ≤ min ((sumSourceCount rs : ℚ) / 10) 1 :=
      le_min (by positivity) zero_le_one
    linarith
  have hf3a : (0 : ℚ) ≤ (if 0 < totalFindingsCount rs then min ((totalFindingsCount rs : ℚ) / 20) 1 * 20 else 0) := by
    split_ifs
    · have : (0 : ℚ) ≤ min ((totalFindingsCount rs : ℚ) / 20) 1 :=
        le_min (by positivity) zero_le_one
      linarith
    · linarith
  have hf4a : (0 : ℚ) ≤ (if 0 < totalInsightsCount rs then min ((totalInsightsCount rs : ℚ) / 10) 1 * 20 else 0) := by
    split_ifs
    · have : (0 : ℚ) ≤ min ((totalInsightsCount rs : ℚ) / 10) 1 :=
        le_min (by positivity) zero_le_one
      linarith
    · linarith
  linarith

theorem score_sum_le_100 (rs : List AgentResult) (hne : rs ≠ []) :
    (successCount rs : ℚ) / (rs.length : ℚ) * 30
      + min ((sumSourceCount rs : ℚ) / 10) 1 * 30
      + (if 0 < totalFindingsCount rs then min ((totalFindingsCount rs : ℚ) / 20) 1 * 20 else 0)
      + (if 0 < totalInsightsCount rs then min ((totalInsightsCount rs : ℚ) / 10) 1 * 20 else 0)
      ≤ 100 := by
  have hlen : (0 : ℚ) < (rs.length : ℚ) := by
    exact_mod_cast List.length_pos.mpr hne
  have hsc : (successCount rs : ℚ) ≤ (rs.length : ℚ) := by
    exact_mod_cast List.length_filter_le _ rs
  have hf1b : (successCount rs : ℚ) / (rs.length : ℚ) * 30 ≤ 30 := by
    have : (successCount rs : ℚ) / (rs.length : ℚ) ≤ 1 := by
      rw [div_le_one hlen]; exact hsc
    linarith
  have hf2b : min ((sumSourceCount rs : ℚ) / 10) 1 * 30 ≤ 30 := by
    have := min_le_right ((sumSourceCount rs : ℚ) / 10) 1
    linarith
  have hf3b : (if 0 < totalFindingsCount rs then min ((totalFindingsCount rs : ℚ) / 20) 1 * 20 else 0) ≤ 20 := by
    split_ifs
    · have := min_le_right ((totalFindingsCount rs : ℚ) / 20) 1
      linarith
    · linarith
  have hf4b : (if 0 < totalInsightsCount rs then min ((totalInsightsCount rs : ℚ) / 10) 1 * 20 else 0) ≤ 20 := by
    split_ifs
    · have := min_le_right ((totalInsightsCount rs : ℚ) / 10) 1
      linarith
    · linarith
  linarith

theorem calculateConfidenceScore_bounds (rs : List AgentResult) :
    0 ≤ calculateConfidenceScore rs ∧ calculateConfidenceScore rs ≤ 100 := by
  unfold calculateConfidenceScore
  by_cases h : rs.isEmpty
  · rw [if_pos h]
    norm_num
  · rw [if_neg h]
    have hne : rs ≠ [] := by simpa [List.isEmpty_iff] using h
    exact ⟨pyRound1_nonneg _ (score_sum_nonneg rs), pyRound1_le_100 _ (score_sum_le_100 rs hne)⟩

theorem calc_conf_eq_spec (rs : List AgentResult) (h : rs ≠ []) :
    calculateConfidenceScore rs = specScore rs := by
  unfold calculateConfidenceScore specScore
  rw [if_neg (by simpa [List.isEmpty_iff] using h)]
  by_cases h1 : totalFindingsCount rs = 0 <;>
    by_cases h2 : totalInsightsCount rs = 0 <;>
      simp [h1, h2, Nat.pos_iff_ne_zero]

/-- C1: for every non-empty `agent_results` list, `_calculate_confidence_score`
returns `round(S, 1)` with `S` the sum of the success-rate, source-diversity,
finding-consistency and insight-depth terms exactly as the specification
writes them; in particular the single successful record with five sources,
one long finding and no insights scores exactly 46.0. -/
theorem confidence_score_matches_spec_formula :
    (∀ rs : List AgentResult, rs ≠ [] → calculateConfidenceScore rs = specScore rs)
    ∧ calculateConfidenceScore [singleSuccessRecord] = 46 := by
  refine ⟨calc_conf_eq_spec, ?_⟩
  have e1 : successCount [singleSuccessRecord] = 1 := rfl
  have e2 : ([singleSuccessRecord] : List AgentResult).length = 1 := rfl
  have e3 : sumSourceCount [singleSuccessRecord] = 5 := rfl
  have e4 : totalFindingsCount [singleSuccessRecord] = 1 := rfl
  have e5 : totalInsightsCount [singleSuccessRecord] = 0 := rfl
  unfold calculateConfidenceScore
  rw [if_neg (by decide)]
  rw [e1, e2, e3, e4, e5]
  have hsum : ((1 : ℕ) : ℚ) / ((1 : ℕ) : ℚ) * 30
      + min (((5 : ℕ) : ℚ) / 10) 1 * 30
      + (if 0 < 1 then min (((1 : ℕ) : ℚ) / 20) 1 * 20 else 0)
      + (if 0 < 0 then min (((0 : ℕ) : ℚ) / 10) 1 * 20 else 0) = ((46 : ℕ) : ℚ) := by
    norm_num [min_def]
  rw [hsum, pyRound1_natCast]
  norm_num

/-- Witness for C1 at the concrete single-record input. -/
theorem confidence_score_matches_spec_formula_witness :
    calculateConfidenceScore [singleSuccessRecord] = specScore [singleSuccessRecord] :=
  confidence_score_matches_spec_formula.1 [singleSuccessRecord] (List.cons_ne_nil _ _)

/-- C2: every consolidated record satisfies the output bounds: at most 10 key
findings, at most 8 insights, at most 5 contradictions, and a confidence
score within [0, 100]. -/
theorem consolidated_output_bounds (query domain : String) (rs : List AgentResult)
    (t : ℚ) (now : String) :
    (consolidateResults query domain rs t now).key_findings.length ≤ 10
    ∧ (consolidateResults query domain rs t now).insights.length ≤ 8
    ∧ (consolidateResults query domain rs t now).contradictions.length ≤ 5
    ∧ 0 ≤ (consolidateResults query domain rs t now).confidence_score
    ∧ (consolidateResults query domain rs t now).confidence_score ≤ 100 := by
  refine ⟨?_, ?_, ?_, (calculateConfidenceScore_bounds rs).1, (calculateConfidenceScore_bounds rs).2⟩
  · show (synthesizeFindings rs).length ≤ 10
    unfold synthesizeFindings
    split_ifs
    · simp
    · exact List.length_take_le _ _
  · show (synthesizeInsights rs domain).length ≤ 8
    unfold synthesizeInsights
    exact List.length_take_le _ _
  · show (detectContradictions rs).length ≤ 5
    unfold detectContradictions
    exact List.length_take_le _ _

/-- C3 counterexample: on the empty input the code puts the one-element
fallback message list into `key_findings`, not the empty sequence the claim
states. -/
theorem empty_input_key_findings_not_nil :
    (consolidateResults "Q" "medical" [] 0 "ts").key_findings = [fallbackFindingMsg]
    ∧ (consolidateResults "Q" "medical" [] 0 "ts").key_findings ≠ [] := by
  constructor
  · rfl
  · decide

/-- C3 amended: consolidating `query="Q"`, `domain="medical"`, an empty agent
list and zero execution time yields confidence 0.0, `key_findings` equal to
the one-element fallback message list, and a non-empty summary containing
both "Q" and "medical". -/
theorem empty_input_fallback_behavior :
    (consolidateResults "Q" "medical" [] 0 "ts").confidence_score = 0
    ∧ (consolidateResults "Q" "medical" [] 0 "ts").key_findings = [fallbackFindingMsg]
    ∧ (consolidateResults "Q" "medical" [] 0 "ts").summary ≠ ""
    ∧ containsSub (consolidateResults "Q" "medical" [] 0 "ts").summary "Q" = true
    ∧ containsSub (consolidateResults "Q" "medical" [] 0 "ts").summary "medical" = true := by
  refine ⟨rfl, rfl, by decide, by decide, by decide⟩

/-- C6 counterexample: a successful record carrying its findings only under
the `findings` field name contributes nothing — the synthesizer falls back to
the canned message and the finding string is absent from the output. -/
theorem findings_only_record_not_used :
    synthesizeFindings [findingsOnlyRecord] = [fallbackFindingMsg]
    ∧ "Academic research finding long enough to matter" ∉ synthesizeFindings [findingsOnlyRecord] := by
  constructor
  · rfl
  · decide

/-- C6 amended: the finding synthesizer reads raw findings only from the
`key_findings` field — its output is invariant under erasing every record's
`findings` field, and a successful record supplying findings only under
`findings` produces the fallback output. -/
theorem synthesize_reads_only_key_findings :
    (∀ rs : List AgentResult,
      synthesizeFindings (rs.map clearFindingsField) = synthesizeFindings rs)
    ∧ synthesizeFindings [findingsOnlyRecord] = [fallbackFindingMsg] := by
  constructor
  · intro rs
    have h : collectFindings (rs.map clearFindingsField) = collectFindings rs := by
      induction rs with
      | nil => rfl
      | cons r rest ih =>
          have hr : resultFindingItems (clearFindingsField r) = resultFindingItems r := rfl
          show resultFindingItems (clearFindingsField r) ++ collectFindings (rest.map clearFindingsField)
              = resultFindingItems r ++ collectFindings rest
          rw [ih, hr]
    unfold synthesizeFindings
    rw [h]
  · rfl

/-- C7: the consolidated output is a pure function of the inputs and the
clock reading; two invocations with the same inputs agree on every field
other than `timestamp`, and `timestamp` is exactly the clock passthrough. -/
theorem consolidate_deterministic_mod_timestamp (query domain : String)
    (rs : List AgentResult) (t : ℚ) (now1 now2 : String) :
    eraseTimestamp (consolidateResults query domain rs t now1)
      = eraseTimestamp (consolidateResults query domain rs t now2)
    ∧ (consolidateResults query domain rs t now1).timestamp = now1 :=
  ⟨rfl, rfl⟩

/-- C9: the output's `total_sources` counts only successful agents' `sources`
entries, while the confidence scorer and the coverage analyzer sum
`source_count` over every record regardless of status; a failed agent with
`source_count = 20` leaves `total_sources` at 0 yet lifts the score to 30
and the breadth tier to "good" (against 0 and "limited" with
`source_count = 0`). -/
theorem source_count_totals_diverge :
    (∀ (q d : String) (rs : List AgentResult) (t : ℚ) (now : String),
        (consolidateResults q d rs t now).total_sources
          = ((successfulResults rs).map (fun r => r.sources.length)).sum)
    ∧ sumSourceCount [failedAgentTwenty] = 20
    ∧ (consolidateResults "q" "d" [failedAgentTwenty] 0 "ts").total_sources = 0
    ∧ (consolidateResults "q" "d" [failedAgentTwenty] 0 "ts").confidence_score = 30
    ∧ (consolidateResults "q" "d" [failedAgentTwenty] 0 "ts").coverage_analysis.breadth = "good"
    ∧ (consolidateResults "q" "d" [failedAgentZero] 0 "ts").confidence_score = 0
    ∧ (consolidateResults "q" "d" [failedAgentZero] 0 "ts").coverage_analysis.breadth = "limited" := by
  have score20 : (consolidateResults "q" "d" [failedAgentTwenty] 0 "ts").confidence_score = 30 := by
    show calculateConfidenceScore [failedAgentTwenty] = 30
    have e1 : successCount [failedAgentTwenty] = 0 := rfl
    have e2 : ([failedAgentTwenty] : List AgentResult).length = 1 := rfl
    have e3 : sumSourceCount [failedAgentTwenty] = 20 := rfl
    have e4 : totalFindingsCount [failedAgentTwenty] = 0 := rfl
    have e5 : totalInsightsCount [failedAgentTwenty] = 0 := rfl
    unfold calculateConfidenceScore
    rw [if_neg (by decide)]
    rw [e1, e2, e3, e4, e5]
    have hsum : ((0 : ℕ) : ℚ) / ((1 : ℕ) : ℚ) * 30
        + min (((20 : ℕ) : ℚ) / 10) 1 * 30
        + (if 0 < 0 then min (((0 : ℕ) : ℚ) / 20) 1 * 20 else 0)
        + (if 0 < 0 then min (((0 : ℕ) : ℚ) / 10) 1 * 20 else 0) = ((30 : ℕ) : ℚ) := by
      norm_num [min_def]
    rw [hsum, pyRound1_natCast]
    norm_num
  have score0 : (consolidateResults "q" "d" [failedAgentZero] 0 "ts").confidence_score = 0 := by
    show calculateConfidenceScore [failedAgentZero] = 0
    have e1 : successCount [failedAgentZero] = 0 := rfl
    have e2 : ([failedAgentZero] : List AgentResult).length = 1 := rfl
    have e3 : sumSourceCount [failedAgentZero] = 0 := rfl
    have e4 : totalFindingsCount [failedAgentZero] = 0 := rfl
    have e5 : totalInsightsCount [failedAgentZero] = 0 := rfl
    unfold calculateConfidenceScore
    rw [if_neg (by decide)]
    rw [e1, e2, e3, e4, e5]
    have hsum : ((0 : ℕ) : ℚ) / ((1 : ℕ) : ℚ) * 30
        + min (((0 : ℕ) : ℚ) / 10) 1 * 30
        + (if 0 < 0 then min (((0 : ℕ) : ℚ) / 20) 1 * 20 else 0)
        + (if 0 < 0 then min (((0 : ℕ) : ℚ) / 10) 1 * 20 else 0) = ((0 : ℕ) : ℚ) := by
      norm_num [min_def]
    rw [hsum, pyRound1_natCast]
    norm_num
  refine ⟨?_, rfl, rfl, score20, rfl, score0, rfl⟩
  intro q d rs t now
  show ((successfulResults rs).map (fun r => r.sources)).flatten.length = _
  rw [List.length_flatten, List.map_map]
  rfl

theorem pairContras_mem (stmts : List Statement) (s1 s2 : Statement)
    (hsub : List.Sublist [s1, s2] stmts) (hag : s1.agent ≠ s2.agent)
    (hcl : keywordClash (lowerString s1.text) (lowerString s2.text) = true) :
    mkContradiction s1 s2 ∈ pairContras stmts := by
  induction stmts with
  | nil => cases hsub
  | cons a rest ih =>
      cases hsub with
      | cons _ h =>
          exact List.mem_append_right _ (ih h)
      | cons₂ _ h =>
          apply List.mem_append_left
          apply List.mem_filterMap.mpr
          refine ⟨s2, List.singleton_sublist.mp h, ?_⟩
          rw [if_pos ⟨hag, hcl⟩]

/-- C8 counterexample: statements about growth/decline (and up/down) from two
different successful agents produce no contradiction record, although both
texts contain the respective words. -/
theorem growth_decline_up_down_not_detected :
    detectContradictions [growthAgent, declineAgent] = []
    ∧ detectContradictions [upAgent, downAgent] = []
    ∧ containsSub (lowerString "Company shows strong growth this quarter") "growth" = true
    ∧ containsSub (lowerString "Company shows clear decline this quarter") "decline" = true
    ∧ containsSub (lowerString "Prices moved up sharply in March") "up" = true
    ∧ containsSub (lowerString "Prices moved down sharply in April") "down" = true := by
  refine ⟨by decide, by decide, by decide, by decide, by decide, by decide⟩

/-- C8 amended: the fixed antonym table holds exactly the six pairs
increases/decreases, positive/negative, bullish/bearish,
effective/ineffective, safe/unsafe and recommended/not recommended — it
contains neither growth/decline nor up/down; for every ordered pair of
collected statements from two different agents whose lowercased texts
exhibit one of the table's keyword pairs (in either direction), the pair
scan records a contradiction for that statement pair, and the detector
returns the first five of those records. -/
theorem contradiction_table_and_detection :
    ("growth", "decline") ∉ contradictionKeywords
    ∧ ("up", "down") ∉ contradictionKeywords
    ∧ (∀ (stmts : List Statement) (s1 s2 : Statement),
        List.Sublist [s1, s2] stmts → s1.agent ≠ s2.agent →
        keywordClash (lowerString s1.text) (lowerString s2.text) = true →
        mkContradiction s1 s2 ∈ pairContras stmts)
    ∧ ∀ rs : List AgentResult,
        detectContradictions rs = (pairContras (collectStatements rs)).take 5 := by
  exact ⟨by decide, by decide, pairContras_mem, fun rs => rfl⟩

/-- Witness for C8 at a concrete bullish/bearish statement pair. -/
theorem contradiction_table_and_detection_witness :
    mkContradiction (⟨"Market sentiment is bullish", "A"⟩ : Statement)
        (⟨"Analysts remain bearish", "B"⟩ : Statement)
      ∈ pairContras [⟨"Market sentiment is bullish", "A"⟩, ⟨"Analysts remain bearish", "B"⟩] :=
  contradiction_table_and_detection.2.2.1 _ _ _ (List.Sublist.refl _) (by decide) (by decide)

theorem mem_pairContras_shape (stmts : List Statement) (c : Contradiction)
    (h : c ∈ pairContras stmts) : ∃ s1 s2 : Statement, c = mkContradiction s1 s2 := by
  induction stmts with
  | nil => cases h
  | cons a rest ih =>
      rcases List.mem_append.mp h with h1 | h2
      · rcases List.mem_filterMap.mp h1 with ⟨s2, _, hf⟩
        by_cases hc : a.agent ≠ s2.agent ∧ keywordClash (lowerString a.text) (lowerString s2.text) = true
        · rw [if_pos hc] at hf
          exact ⟨a, s2, (Option.some_injective _ hf).symm⟩
        · rw [if_neg hc] at hf
          cases hf
      · exact ih h2

theorem truncate100_length (s : String) : (truncate100 s).length ≤ 103 := by
  unfold truncate100
  rw [String.length_append]
  have h : (String.mk (s.toList.take 100)).length ≤ 100 := by
    show (s.toList.take 100).length ≤ 100
    exact List.length_take_le _ _
  have h3 : "...".length = 3 := rfl
  omega

theorem truncate100_suffix (s : String) :
    List.IsSuffix "...".toList (truncate100 s).toList := by
  unfold truncate100
  have hd : (String.mk (s.toList.take 100) ++ "...").toList
      = s.toList.take 100 ++ "...".toList := rfl
  show List.IsSuffix "...".toList (String.mk (s.toList.take 100) ++ "...").toList
  rw [hd]
  exact List.suffix_append _ _

/-- C10: every contradiction record's two statements are the originating
cleaned texts truncated to their first 100 characters with "..." appended
unconditionally, so each is at most 103 characters long and ends in "...". -/
theorem contradiction_statements_truncated (rs : List AgentResult) (c : Contradiction)
    (h : c ∈ detectContradictions rs) :
    c.statement1.length ≤ 103 ∧ c.statement2.length ≤ 103
    ∧ List.IsSuffix "...".toList c.statement1.toList
    ∧ List.IsSuffix "...".toList c.statement2.toList
    ∧ ∃ t1 t2 : String, c.statement1 = truncate100 t1 ∧ c.statement2 = truncate100 t2 := by
  have hmem : c ∈ pairContras (collectStatements rs) := by
    have := h
    unfold detectContradictions at this
    exact List.mem_of_mem_take this
  rcases mem_pairContras_shape _ c hmem with ⟨s1, s2, rfl⟩
  exact ⟨truncate100_length _, truncate100_length _, truncate100_suffix _,
    truncate100_suffix _, s1.text, s2.text, rfl, rfl⟩

/-- Witness for C10: the short safe/unsafe statements still receive the
ellipsis suffix. -/
theorem contradiction_statements_truncated_witness :
    ((mkContradiction (⟨"The treatment is safe", "A"⟩ : Statement)
        (⟨"The treatment is unsafe", "B"⟩ : Statement)).statement1.length ≤ 103)
    ∧ (mkContradiction (⟨"The treatment is safe", "A"⟩ : Statement)
        (⟨"The treatment is unsafe", "B"⟩ : Statement)).statement1 = "The treatment is safe..." := by
  have h := contradiction_statements_truncated [safeAgent, unsafeAgent]
    (mkContradiction (⟨"The treatment is safe", "A"⟩ : Statement)
      (⟨"The treatment is unsafe", "B"⟩ : Statement)) (by decide)
  exact ⟨h.1, by decide⟩

theorem jaccardTexts_comm (a b : String) : jaccardTexts a b = jaccardTexts b a := by
  unfold jaccardTexts jaccardQ
  rw [Finset.inter_comm, Finset.union_comm]

theorem not_similar_jaccard_lt (a b : String) (h : textsAreSimilar a b = false) :
    jaccardTexts a b < 3 / 5 := by
  unfold textsAreSimilar at h
  by_cases hw : wordSet a = ∅ ∨ wordSet b = ∅
  · unfold jaccardTexts jaccardQ
    rcases hw with h1 | h1
    · rw [h1, Finset.empty_inter]
      norm_num
    · rw [h1, Finset.inter_empty]
      norm_num
  · rw [if_neg hw] at h
    have := of_decide_eq_false h
    exact lt_of_not_le this

theorem dedupFindings_not_similar (items : List FindingItem) :
    ∀ (seen : List String) (s : String),
    (∀ it ∈ items, it.normalized = normalizeText it.text) →
    s ∈ seen →
    ∀ b ∈ dedupFindings items seen, textsAreSimilar (normalizeText b) s = false := by
  induction items with
  | nil =>
      intro seen s _ _ b hb
      cases hb
  | cons it rest ih =>
      intro seen s hn hs b hb
      unfold dedupFindings at hb
      by_cases hd : seen.any (fun x => textsAreSimilar it.normalized x)
      · rw [if_pos hd] at hb
        exact ih seen s (fun j hj => hn j (List.mem_cons_of_mem _ hj)) hs b hb
      · rw [if_neg hd] at hb
        rcases List.mem_cons.mp hb with rfl | hb2
        · have hnit : it.normalized = normalizeText it.text := hn it (List.mem_cons_self _ _)
          have hall : ∀ x ∈ seen, textsAreSimilar it.normalized x = false := by
            intro x hx
            by_contra hcon
            exact hd (List.any_eq_true.mpr ⟨x, hx, by
              cases hval : textsAreSimilar it.normalized x
              · exact absurd hval hcon
              · rfl⟩)
          rw [← hnit]
          exact hall s hs
        · exact ih (it.normalized :: seen) s
            (fun j hj => hn j (List.mem_cons_of_mem _ hj))
            (List.mem_cons_of_mem _ hs) b hb2

theorem dedupFindings_pairwise (items : List FindingItem) :
    ∀ seen : List String,
    (∀ it ∈ items, it.normalized = normalizeText it.text) →
    (dedupFindings items seen).Pairwise
      (fun a b => textsAreSimilar (normalizeText b) (normalizeText a) = false) := by
  induction items with
  | nil =>
      intro seen _
      simp [dedupFindings]
  | cons it rest ih =>
      intro seen hn
      unfold dedupFindings
      by_cases hd : seen.any (fun x => textsAreSimilar it.normalized x)
      · rw [if_pos hd]
        exact ih seen (fun j hj => hn j (List.mem_cons_of_mem _ hj))
      · rw [if_neg hd]
        refine List.Pairwise.cons ?_ (ih (it.normalized :: seen) (fun j hj => hn j (List.mem_cons_of_mem _ hj)))
        intro b hb
        have hnit : it.normalized = normalizeText it.text := hn it (List.mem_cons_self _ _)
        have hne := dedupFindings_not_similar rest (it.normalized :: seen) it.normalized
          (fun j hj => hn j (List.mem_cons_of_mem _ hj))
          (List.mem_cons_self _ _) b hb
        rw [hnit] at hne
        exact hne

theorem collectFindings_normalized (rs : List AgentResult) :
    ∀ it ∈ collectFindings rs, it.normalized = normalizeText it.text := by
  induction rs with
  | nil =>
      intro it h
      cases h
  | cons r rest ih =>
      intro it h
      rcases List.mem_append.mp h with h1 | h2
      · unfold resultFindingItems at h1
        by_cases hs : r.status = "success"
        · rw [if_pos hs] at h1
          rcases List.mem_filterMap.mp h1 with ⟨f, _, hf⟩
          by_cases hc : cleanText f ≠ "" ∧ 20 < (cleanText f).length
          · rw [if_pos hc] at hf
            have := Option.some_injective _ hf
            rw [← this]
          · rw [if_neg hc] at hf
            cases hf
        · rw [if_neg hs] at h1
          cases h1
      · exact ih it h2

/-- C4: no two strings in the synthesized `key_findings` output have a
Jaccard word-set similarity of at least 0.6 after normalization: every pair
of output entries (in particular every pair of distinct strings) sits
strictly below the 0.6 threshold. -/
theorem findings_dedup_invariant (rs : List AgentResult) :
    (synthesizeFindings rs).Pairwise
      (fun a b => jaccardTexts (normalizeText a) (normalizeText b) < 3 / 5) := by
  unfold synthesizeFindings
  split_ifs with h
  · simp
  · have hp := dedupFindings_pairwise (collectFindings rs) [] (collectFindings_normalized rs)
    have hp2 : (dedupFindings (collectFindings rs) []).Pairwise
        (fun a b => jaccardTexts (normalizeText a) (normalizeText b) < 3 / 5) := by
      refine hp.imp ?_
      intro a b hab
      have hlt := not_similar_jaccard_lt _ _ hab
      rw [jaccardTexts_comm] at hlt
      exact hlt
    exact hp2.sublist (List.take_sublist _ _)

/-- C5 counterexample: `_clean_text` is not idempotent — cleaning
`"#[1] b"` removes the citation marker and yields `"# b"`, which a second
cleaning reduces further to `"b"` via the heading rule. -/
theorem clean_text_not_idempotent :
    cleanText "#[1] b" = "# b"
    ∧ cleanText (cleanText "#[1] b") = "b"
    ∧ cleanText (cleanText "#[1] b") ≠ cleanText "#[1] b" := by
  refine ⟨rfl, rfl, by decide⟩

theorem stripTagsGo_eq_self (fuel : Nat) :
    ∀ l : List Char, (∀ c ∈ l, ¬ c = '<') → stripTagsGo fuel l = l := by
  induction fuel with
  | zero => intro l _; rfl
  | succ n ih =>
      intro l h
      cases l with
      | nil => rfl
      | cons c rest =>
          have hc : ¬ c = '<' := h c (List.mem_cons_self _ _)
          show stripTagsGo (n + 1) (c :: rest) = c :: rest
          simp only [stripTagsGo]
          rw [if_neg hc, ih rest (fun d hd => h d (List.mem_cons_of_mem _ hd))]

theorem stripBoldGo_eq_self (fuel : Nat) :
    ∀ l : List Char, (∀ c ∈ l, ¬ c = '*') → stripBoldGo fuel l = l := by
  induction fuel with
  | zero => intro l _; rfl
  | succ n ih =>
      intro l h
      cases l with
      | nil => rfl
      | cons c rest =>
          have hc : ¬ c = '*' := h c (List.mem_cons_self _ _)
          cases rest with
          | nil => rfl
          | cons c2 rest2 =>
              show stripBoldGo (n + 1) (c :: c2 :: rest2) = c :: c2 :: rest2
              simp only [stripBoldGo]
              rw [if_neg hc,
                ih (c2 :: rest2) (fun d hd => h d (List.mem_cons_of_mem _ hd))]

theorem stripItalicGo_eq_self (fuel : Nat) :
    ∀ l : List Char, (∀ c ∈ l, ¬ c = '*') → stripItalicGo fuel l = l := by
  induction fuel with
  | zero => intro l _; rfl
  | succ n ih =>
      intro l h
      cases l with
      | nil => rfl
      | cons c rest =>
          have hc : ¬ c = '*' := h c (List.mem_cons_self _ _)
          show stripItalicGo (n + 1) (c :: rest) = c :: rest
          simp only [stripItalicGo]
          rw [if_neg hc, ih rest (fun d hd => h d (List.mem_cons_of_mem _ hd))]

theorem stripHeadingGo_eq_self (fuel : Nat) :
    ∀ l : List Char, (∀ c ∈ l, ¬ c = '#') → stripHeadingGo fuel l = l := by
  induction fuel with
  | zero => intro l _; rfl
  | succ n ih =>
      intro l h
      cases l with
      | nil => rfl
      | cons c rest =>
          have hc : ¬ c = '#' := h c (List.mem_cons_self _ _)
          show stripHeadingGo (n + 1) (c :: rest) = c :: rest
          simp only [stripHeadingGo]
          rw [if_neg hc, ih rest (fun d hd => h d (List.mem_cons_of_mem _ hd))]

theorem stripCodeGo_eq_self (fuel : Nat) :
    ∀ l : List Char, (∀ c ∈ l, ¬ c = Char.ofNat 96) → stripCodeGo fuel l = l := by
  induction fuel with
  | zero => intro l _; rfl
  | succ n ih =>
      intro l h
      cases l with
      | nil => rfl
      | cons c rest =>
          have hc : ¬ c = Char.ofNat 96 := h c (List.mem_cons_self _ _)
          show stripCodeGo (n + 1) (c :: rest) = c :: rest
          simp only [stripCodeGo]
          rw [if_neg hc, ih rest (fun d hd => h d (List.mem_cons_of_mem _ hd))]

theorem stripCiteGo_eq_self (fuel : Nat) :
    ∀ l : List Char, (∀ c ∈ l, ¬ c = '[') → stripCiteGo fuel l = l := by
  induction fuel with
  | zero => intro l _; rfl
  | succ n ih =>
      intro l h
      cases l with
      | nil => rfl
      | cons c rest =>
          have hc : ¬ c = '[' := h c (List.mem_cons_self _ _)
          show stripCiteGo (n + 1) (c :: rest) = c :: rest
          simp only [stripCiteGo]
          rw [if_neg hc, ih rest (fun d hd => h d (List.mem_cons_of_mem _ hd))]

theorem cleanTextL_plain (l : List Char) (h : ∀ c ∈ l, c ∉ triggerChars) :
    cleanTextL l = pyStrip (collapseWs l) := by
  have h1 : ∀ c ∈ l, ¬ c = '<' := by
    intro c hc he; exact h c hc (by rw [he]; decide)
  have h2 : ∀ c ∈ l, ¬ c = '*' := by
    intro c hc he; exact h c hc (by rw [he]; decide)
  have h3 : ∀ c ∈ l, ¬ c = '#' := by
    intro c hc he; exact h c hc (by rw [he]; decide)
  have h4 : ∀ c ∈ l, ¬ c = Char.ofNat 96 := by
    intro c hc he; exact h c hc (by rw [he]; decide)
  have h5 : ∀ c ∈ l, ¬ c = '[' := by
    intro c hc he; exact h c hc (by rw [he]; decide)
  simp only [cleanTextL]
  rw [stripTagsGo_eq_self _ l h1, stripBoldGo_eq_self _ l h2, stripItalicGo_eq_self _ l h2,
    stripHeadingGo_eq_self _ l h3, stripCodeGo_eq_self _ l h4, stripCiteGo_eq_self _ l h5]

theorem collapseGo_head_true :
    ∀ (l : List Char) (c : Char) (rest : List Char),
    collapseGo true l = c :: rest → isPySpace c = false := by
  intro l
  induction l with
  | nil => intro c rest h; cases h
  | cons d t ih =>
      intro c rest h
      by_cases hws : isPySpace d = true
      · simp only [collapseGo] at h
        rw [if_pos hws] at h
        simp only [if_true] at h
        exact ih c rest h
      · have hdf : isPySpace d = false := by
          cases hv : isPySpace d
          · rfl
          · exact absurd hv hws
        simp only [collapseGo] at h
        rw [if_neg hws] at h
        injection h with e1 _
        rw [← e1]
        exact hdf

theorem collapseGo_mem :
    ∀ (l : List Char) (b : Bool) (c : Char), c ∈ collapseGo b l → c ∈ l ∨ c = ' ' := by
  intro l
  induction l with
  | nil => intro b c h; cases h
  | cons d t ih =>
      intro b c h
      by_cases hws : isPySpace d = true
      · cases b with
        | true =>
            simp only [collapseGo] at h
            rw [if_pos hws] at h
            simp only [if_true] at h
            rcases ih true c h with h1 | h1
            · exact Or.inl (List.mem_cons_of_mem _ h1)
            · exact Or.inr h1
        | false =>
            simp only [collapseGo] at h
            rw [if_pos hws, if_neg Bool.false_ne_true] at h
            rcases List.mem_cons.mp h with rfl | h2
            · exact Or.inr rfl
            · rcases ih true c h2 with h1 | h1
              · exact Or.inl (List.mem_cons_of_mem _ h1)
              · exact Or.inr h1
      · simp only [collapseGo] at h
        rw [if_neg hws] at h
        rcases List.mem_cons.mp h with rfl | h2
        · exact Or.inl (List.mem_cons_self _ _)
        · rcases ih false c h2 with h1 | h1
          · exact Or.inl (List.mem_cons_of_mem _ h1)
          · exact Or.inr h1

theorem collapseGo_space_char :
    ∀ (l : List Char) (b : Bool) (c : Char),
    c ∈ collapseGo b l → isPySpace c = true → c = ' ' := by
  intro l
  induction l with
  | nil => intro b c h; cases h
  | cons d t ih =>
      intro b c h hws
      by_cases hd : isPySpace d = true
      · cases b with
        | true =>
            simp only [collapseGo] at h
            rw [if_pos hd] at h
            simp only [if_true] at h
            exact ih true c h hws
        | false =>
            simp only [collapseGo] at h
            rw [if_pos hd, if_neg Bool.false_ne_true] at h
            rcases List.mem_cons.mp h with rfl | h2
            · rfl
            · exact ih true c h2 hws
      · have hdf : isPySpace d = false := by
          cases hv : isPySpace d
          · rfl
          · exact absurd hv hd
        simp only [collapseGo] at h
        rw [if_neg hd] at h
        rcases List.mem_cons.mp h with rfl | h2
        · rw [hws] at hdf; cases hdf
        · exact ih false c h2 hws

theorem collapseGo_chain :
    ∀ (l : List Char) (b : Bool), List.Chain' noTwoWs (collapseGo b l) := by
  intro l
  induction l with
  | nil => intro b; simp [collapseGo]
  | cons d t ih =>
      intro b
      by_cases hd : isPySpace d = true
      · cases b with
        | true =>
            simp only [collapseGo]
            rw [if_pos hd]
            simp only [if_true]
            exact ih true
        | false =>
            simp only [collapseGo]
            rw [if_pos hd, if_neg Bool.false_ne_true]
            refine List.chain'_cons'.mpr ⟨?_, ih true⟩
            intro y hy
            rw [Option.mem_def] at hy
            cases hc : collapseGo true t with
            | nil => rw [hc] at hy; cases hy
            | cons z zs =>
                rw [hc] at hy
                have hz := collapseGo_head_true t z zs hc
                have hzy : z = y := by
                  simp only [List.head?] at hy
                  injection hy
                intro hcon
                rw [← hzy, hz] at hcon
                exact Bool.false_ne_true hcon.2
      · simp only [collapseGo]
        rw [if_neg hd]
        have hdf : isPySpace d = false := by
          cases hv : isPySpace d
          · rfl
          · exact absurd hv hd
        refine List.chain'_cons'.mpr ⟨?_, ih false⟩
        intro y _
        intro hcon
        rw [hdf] at hcon
        exact Bool.false_ne_true hcon.1

theorem collapse_eq_self :
    ∀ l : List Char,
    (∀ c ∈ l, isPySpace c = true → c = ' ') → List.Chain' noTwoWs l →
    collapseGo false l = l
    ∧ (∀ c rest, l = c :: rest → isPySpace c = false → collapseGo true l = l) := by
  intro l
  induction l with
  | nil => exact fun _ _ => ⟨rfl, fun c rest h _ => by cases h⟩
  | cons d t ih =>
      intro hch hchain
      have hcht : ∀ c ∈ t, isPySpace c = true → c = ' ' :=
        fun c hc => hch c (List.mem_cons_of_mem _ hc)
      have hchaint : List.Chain' noTwoWs t := (List.chain'_cons'.mp hchain).2
      have iht := ih hcht hchaint
      by_cases hws : isPySpace d = true
      · have hd : d = ' ' := hch d (List.mem_cons_self _ _) hws
        have htail : collapseGo true t = t := by
          cases t with
          | nil => rfl
          | cons e t2 =>
              have hrel := (List.chain'_cons'.mp hchain).1 e (by simp)
              have he : isPySpace e = false := by
                cases hv : isPySpace e
                · rfl
                · exact absurd ⟨hws, hv⟩ hrel
              exact iht.2 e t2 rfl he
        constructor
        · simp only [collapseGo]
          rw [if_pos hws, if_neg Bool.false_ne_true, htail, hd]
        · intro c rest heq hcf
          injection heq with e1 _
          rw [← e1] at hcf
          rw [hws] at hcf
          cases hcf
      · constructor
        · simp only [collapseGo]
          rw [if_neg hws, iht.1]
        · intro c rest _ _
          simp only [collapseGo]
          rw [if_neg hws, iht.1]

theorem dropWhile_head_false (p : Char → Bool) :
    ∀ (l : List Char) (c : Char) (rest : List Char),
    l.dropWhile p = c :: rest → p c = false := by
  intro l
  induction l with
  | nil => intro c rest h; cases h
  | cons d t ih =>
      intro c rest h
      rw [List.dropWhile_cons] at h
      by_cases hd : p d = true
      · rw [if_pos hd] at h
        exact ih c rest h
      · have hdf : p d = false := by
          cases hv : p d
          · rfl
          · exact absurd hv hd
        rw [if_neg hd] at h
        injection h with e1 _
        rw [← e1]
        exact hdf

theorem pyStrip_head_false (l : List Char) (c : Char) (rest : List Char)
    (h : pyStrip l = c :: rest) : isPySpace c = false := by
  unfold pyStrip at h
  have hh : (((l.dropWhile isPySpace).reverse.dropWhile isPySpace)).getLast? = some c := by
    rw [← List.head?_reverse, h]
    rfl
  -- the dropped list is nonempty; its getLast equals the getLast of the full reversed list
  have hne : ((l.dropWhile isPySpace).reverse.dropWhile isPySpace) ≠ [] := by
    intro hnil
    rw [hnil] at h
    cases h
  -- getLast of a dropWhile equals getLast of the original when nonempty
  have hdg : ∀ (m : List Char), m.dropWhile isPySpace ≠ [] →
      (m.dropWhile isPySpace).getLast? = m.getLast? := by
    intro m
    induction m with
    | nil => intro hm; cases hm rfl
    | cons d t ih =>
        intro hm
        rw [List.dropWhile_cons]
        by_cases hd : isPySpace d = true
        · rw [List.dropWhile_cons, if_pos hd] at hm
          rw [if_pos hd]
          cases t with
          | nil => cases hm rfl
          | cons e t2 =>
              rw [ih hm, List.getLast?_cons_cons]
        · rw [if_neg hd]
  rw [hdg _ hne, List.getLast?_reverse] at hh
  cases hd : l.dropWhile isPySpace with
  | nil => rw [hd] at hh; cases hh
  | cons z zs =>
      rw [hd] at hh
      have hz : z = c := by
        simp only [List.head?] at hh
        injection hh
      rw [← hz]
      exact dropWhile_head_false isPySpace l z zs hd

theorem pyStrip_getLast_false (l : List Char) (c : Char)
    (h : (pyStrip l).getLast? = some c) : isPySpace c = false := by
  unfold pyStrip at h
  rw [List.getLast?_reverse] at h
  cases hd : ((l.dropWhile isPySpace).reverse.dropWhile isPySpace) with
  | nil => rw [hd] at h; cases h
  | cons z zs =>
      rw [hd] at h
      have hz : z = c := by
        simp only [List.head?] at h
        injection h
      rw [← hz]
      exact dropWhile_head_false isPySpace _ z zs hd

theorem pyStrip_eq_self (l : List Char)
    (hh : ∀ c rest, l = c :: rest → isPySpace c = false)
    (hl : ∀ c, l.getLast? = some c → isPySpace c = false) : pyStrip l = l := by
  unfold pyStrip
  have h1 : l.dropWhile isPySpace = l := by
    cases l with
    | nil => rfl
    | cons d t =>
        rw [List.dropWhile_cons, if_neg (by rw [hh d t rfl]; exact Bool.false_ne_true)]
  rw [h1]
  have h2 : l.reverse.dropWhile isPySpace = l.reverse := by
    cases hr : l.reverse with
    | nil => rfl
    | cons d t =>
        have hlast : l.getLast? = some d := by
          rw [← List.head?_reverse, hr]
          rfl
        rw [List.dropWhile_cons,
          if_neg (by rw [hl d hlast]; exact Bool.false_ne_true)]
  rw [h2, List.reverse_reverse]

theorem mem_pyStrip (l : List Char) (c : Char) (h : c ∈ pyStrip l) : c ∈ l := by
  unfold pyStrip at h
  rw [List.mem_reverse] at h
  have h2 := (List.dropWhile_sublist (l := (l.dropWhile isPySpace).reverse) isPySpace).subset h
  rw [List.mem_reverse] at h2
  exact (List.dropWhile_sublist isPySpace).subset h2

theorem chain_noTwoWs_dropWhile (p : Char → Bool) :
    ∀ l : List Char, List.Chain' noTwoWs l → List.Chain' noTwoWs (l.dropWhile p) := by
  intro l
  induction l with
  | nil => intro _; simp
  | cons d t ih =>
      intro h
      rw [List.dropWhile_cons]
      by_cases hd : p d = true
      · rw [if_pos hd]
        exact ih (List.chain'_cons'.mp h).2
      · rw [if_neg hd]
        exact h

theorem chain_noTwoWs_reverse (l : List Char) (h : List.Chain' noTwoWs l) :
    List.Chain' noTwoWs l.reverse := by
  rw [List.chain'_reverse]
  refine h.imp ?_
  intro a b hab
  intro hcon
  exact hab ⟨hcon.2, hcon.1⟩

theorem chain_noTwoWs_pyStrip (l : List Char) (h : List.Chain' noTwoWs l) :
    List.Chain' noTwoWs (pyStrip l) := by
  unfold pyStrip
  exact chain_noTwoWs_reverse _ (chain_noTwoWs_dropWhile _ _ (chain_noTwoWs_reverse _ (chain_noTwoWs_dropWhile _ _ h)))

set_option maxHeartbeats 1000000 in
/-- C5 amended: `_clean_text` is idempotent on strings containing none of
the markup trigger characters `<`, `*`, `#`, the backtick, `[` — on such
strings cleaning reduces to whitespace collapsing plus trimming, and a
second application changes nothing.  (On general strings idempotence fails,
see the counterexample.) -/
theorem clean_idempotent_on_plain_strings (s : String)
    (h : ∀ c ∈ s.toList, c ∉ triggerChars) :
    cleanText (cleanText s) = cleanText s := by
  have h1 : cleanTextL s.toList = pyStrip (collapseWs s.toList) := cleanTextL_plain _ h
  -- the cleaned characters still avoid the trigger characters
  have hm : ∀ c ∈ pyStrip (collapseWs s.toList), c ∉ triggerChars := by
    intro c hc
    have hc2 := mem_pyStrip _ _ hc
    rcases collapseGo_mem _ _ _ hc2 with h3 | h3
    · exact h c h3
    · rw [h3]; decide
  show String.mk (cleanTextL (String.mk (cleanTextL s.toList)).toList) = String.mk (cleanTextL s.toList)
  have htl : (String.mk (cleanTextL s.toList)).toList = cleanTextL s.toList := rfl
  rw [htl, h1, cleanTextL_plain _ hm]
  -- goal: pyStrip (collapseWs (pyStrip (collapseWs s.toList))) = pyStrip (collapseWs s.toList)
  have hchars : ∀ c ∈ pyStrip (collapseWs s.toList), isPySpace c = true → c = ' ' := by
    intro c hc hws
    exact collapseGo_space_char _ _ _ (mem_pyStrip _ _ hc) hws
  have hchain : List.Chain' noTwoWs (pyStrip (collapseWs s.toList)) :=
    chain_noTwoWs_pyStrip _ (collapseGo_chain _ false)
  have hcol : collapseWs (pyStrip (collapseWs s.toList)) = pyStrip (collapseWs s.toList) :=
    (collapse_eq_self _ hchars hchain).1
  rw [hcol]
  exact congrArg String.mk
    (pyStrip_eq_self _ (pyStrip_head_false _) (pyStrip_getLast_false _))

/-- Witness for C5 on a concrete plain string with repeated spaces. -/
theorem clean_idempotent_on_plain_strings_witness :
    (∀ c ∈ ("Hello  world ").toList, c ∉ triggerChars)
    ∧ cleanText (cleanText "Hello  world ") = cleanText "Hello  world " :=
  ⟨by decide, clean_idempotent_on_plain_strings "Hello  world " (by decide)⟩

end Lumina
